import Mathlib

/-!
# acc2tax — a verification development

Shallow embedding of the taxonomy-resolution programs `acc2tax.c` and
`gi2tax.c`.  Strings and file contents are modelled as lists of bytes
(`List Nat`); the dense C arrays (`nodes`, `names`, `gi_to_node`) are
modelled as total functions out of `Nat`; loops that the C source does not
bound are modelled with explicit fuel, `none` meaning the loop was still
running when the fuel ran out.
-/

namespace Acc2Tax

/-- Bytes of a string literal, for readable fixtures. -/
def strBytes (s : String) : List Nat := s.data.map Char.toNat

/-- C `unsigned int` conversion of a (possibly negative) parsed integer. -/
def toUInt32nat (i : Int) : Nat := (i % 4294967296).toNat

/-- Characters `chomp` strips from the end of a line: in C, `str[i] < ' '`
on a signed `char`, so control bytes and bytes ≥ 128 both count. -/
def isChompedByte (b : Nat) : Bool := b < 32 || 128 ≤ b

/-- Embedding of `chomp` (acc2tax.c): remove trailing control characters,
but never the byte at index 0 (the C loop guard is `i > 0`). -/
def chomp (s : List Nat) : List Nat :=
  match s with
  | [] => []
  | c0 :: rest => c0 :: ((rest.reverse.dropWhile isChompedByte).reverse)

/-- Whitespace bytes skipped by C `atoi`. -/
def isSpaceByte (b : Nat) : Bool :=
  b = 32 || b = 9 || b = 10 || b = 11 || b = 12 || b = 13

/-- Value of the leading run of decimal digits, C `atoi` style. -/
def digitsVal : List Nat → Nat → Nat
  | b :: bs, acc => if 48 ≤ b && b ≤ 57 then digitsVal bs (acc * 10 + (b - 48)) else acc
  | [], acc => acc

/-- Embedding of C `atoi`: skip whitespace, optional sign, digit prefix;
no digits gives 0. -/
def atoi (s : List Nat) : Int :=
  match s.dropWhile isSpaceByte with
  | 45 :: rest => - (digitsVal rest 0 : Int)
  | 43 :: rest => (digitsVal rest 0 : Int)
  | s1 => (digitsVal s1 0 : Int)

/-- Tokens produced by repeated `strtok(line, "\t")`: the maximal nonempty
runs of non-tab bytes (consecutive tabs yield no empty token). -/
def tabTokens (s : List Nat) : List (List Nat) :=
  (s.splitOnP (fun b => b == 9)).filter (fun t => !t.isEmpty)

/-- Fields produced by `get_name_fields`: the line split at every single
tab, empty fields preserved. -/
def splitTabs (s : List Nat) : List (List Nat) :=
  s.splitOnP (fun b => b == 9)

/-- Embedding of C `strcmp` on byte strings (a strict prefix is smaller,
matching the terminating NUL comparing below any byte). -/
def strcmpO : List Nat → List Nat → Ordering
  | [], [] => Ordering.eq
  | [], _ :: _ => Ordering.lt
  | _ :: _, [] => Ordering.gt
  | a :: as, b :: bs =>
    if a < b then Ordering.lt else if b < a then Ordering.gt else strcmpO as bs

/-- Bytes read by `fgets`: everything up to and including the next newline
(or to end of file). -/
def takeThroughNL : List Nat → List Nat
  | [] => []
  | b :: bs => if b = 10 then [10] else b :: takeThroughNL bs

/-- The line `fgets` reads when the cursor is at byte `start` of `file`. -/
def fgetsFrom (file : List Nat) (start : Nat) : List Nat :=
  takeThroughNL (file.drop start)

/-- Cursor position after the backward scan of `get_closest_record`
(acc2tax.c, the `while (pos >= 0) { fseek; pos--; c = fgetc; ... }` loop).
Reading the byte at `pos` advances the cursor to `pos + 1`; on a newline the
loop breaks there, and when `pos` reaches 0 the loop ends with the cursor at
1 whether or not byte 0 is a newline.  Bytes past end of file read as EOF,
which is not a newline. -/
def recordReadStart (file : List Nat) : Nat → Nat
  | 0 => 1
  | pos + 1 => if file.getD (pos + 1) 0 = 10 then pos + 2 else recordReadStart file pos

/-- Embedding of `get_closest_record`: scan backward from `pos`, then
`fgets` the line at the resulting cursor. -/
def get_closest_record (file : List Nat) (pos : Nat) : List Nat :=
  fgetsFrom file (recordReadStart file pos)

/-- One parsed accession record: `(accession, version, taxid, gi)`. -/
structure AccRecord where
  accession : List Nat
  version : List Nat
  taxid : Int
  gi : Int
deriving DecidableEq

/-- Embedding of `split_fields`: four `strtok` tabs, missing trailing
numeric fields defaulting to 0.  A missing accession or version token (a
NULL in C) is modelled as the empty string. -/
def split_fields (line : List Nat) : AccRecord :=
  let ts := tabTokens line
  { accession := ts.getD 0 []
    version := ts.getD 1 []
    taxid := match ts.get? 2 with | some s => atoi s | none => 0
    gi := match ts.get? 3 with | some s => atoi s | none => 0 }

/-- Embedding of the `while (found == 0)` loop of `find_accession`, on the
current byte range `[mn, mx)`.  The C code checks `abs(max - min) < 20`
after updating the bound even when a match was just found, but the result
returned is the same, so the found case returns directly.  Termination is
the content of claim C9: a continuing iteration has just checked that the
new width is at least 20, and the new width is at most half the old one. -/
def findLoop (file q : List Nat) (mn mx : Nat) : Bool × AccRecord :=
  match strcmpO (split_fields (get_closest_record file (mn + (mx - mn) / 2))).accession q with
  | Ordering.eq => (true, split_fields (get_closest_record file (mn + (mx - mn) / 2)))
  | Ordering.gt =>
    if mn + (mx - mn) / 2 - mn < 20 then
      (false, split_fields (get_closest_record file (mn + (mx - mn) / 2)))
    else findLoop file q mn (mn + (mx - mn) / 2)
  | Ordering.lt =>
    if mx - (mn + (mx - mn) / 2) < 20 then
      (false, split_fields (get_closest_record file (mn + (mx - mn) / 2)))
    else findLoop file q (mn + (mx - mn) / 2) mx
termination_by mx - mn
decreasing_by
  all_goals omega

/-- Embedding of `find_accession`: search the whole file, `[0, size)`. -/
def find_accession (file q : List Nat) : Bool × AccRecord :=
  findLoop file q 0 file.length

/-- Fuel-counted variant of `findLoop`, used to state that the loop always
finishes within `mx - mn + 1` iterations (`none` = fuel ran out first). -/
def findLoopF (file q : List Nat) : Nat → Nat → Nat → Option (Bool × AccRecord)
  | _, _, 0 => none
  | mn, mx, fuel + 1 =>
    match strcmpO (split_fields (get_closest_record file (mn + (mx - mn) / 2))).accession q with
    | Ordering.eq => some (true, split_fields (get_closest_record file (mn + (mx - mn) / 2)))
    | Ordering.gt =>
      if mn + (mx - mn) / 2 - mn < 20 then
        some (false, split_fields (get_closest_record file (mn + (mx - mn) / 2)))
      else findLoopF file q mn (mn + (mx - mn) / 2) fuel
    | Ordering.lt =>
      if mx - (mn + (mx - mn) / 2) < 20 then
        some (false, split_fields (get_closest_record file (mn + (mx - mn) / 2)))
      else findLoopF file q (mn + (mx - mn) / 2) mx fuel

/-! ## Taxonomy walk and lineage rendering

Both programs collect the chain with `while (current_node > 1) {
node_list[n++] = current_node; current_node = nodes[current_node]; }`.
The C loop has no iteration bound (1024 is only the unchecked capacity of
`node_list`), so the embedding carries explicit fuel: `none` means the loop
was still running after `fuel` parent-link steps. -/

/-- The collected `node_list` (query-first order), or `none` if the walk
has not reached a node ≤ 1 within `fuel` steps. -/
def walkSteps (nodes : Nat → Nat) : Nat → Nat → Option (List Nat)
  | current, 0 => if current ≤ 1 then some [] else none
  | current, fuel + 1 =>
    if current ≤ 1 then some []
    else
      match walkSteps nodes (nodes current) fuel with
      | some l => some (current :: l)
      | none => none

/-- The literal placed in output when a name or mapping is missing. -/
def unknownB : List Nat := strBytes "Unknown"

/-- The separator of lineage elements. -/
def commaB : List Nat := strBytes ","

/-- `names[id]` when present, else the substituted literal. -/
def nameOrUnknown (names : Nat → Option (List Nat)) (id : Nat) : List Nat :=
  (names id).getD unknownB

/-- Rendering loop of acc2tax's `get_taxonomy_from_node`, applied to the
root-first (reversed) id list: append the name, or "Unknown" when absent,
and a comma after every element except the last (`if (i > 0)` in C). -/
def accRender (names : Nat → Option (List Nat)) : List Nat → List Nat
  | [] => []
  | [id] => nameOrUnknown names id
  | id :: id2 :: rest => nameOrUnknown names id ++ commaB ++ accRender names (id2 :: rest)

/-- Rendering loop of gi2tax's `get_taxonomy_by_gi`, applied to the
root-first id list: when the name is absent nothing is appended at all,
not even the element's comma (the `else` branch only prints a diagnostic). -/
def giRender (names : Nat → Option (List Nat)) : List Nat → List Nat
  | [] => []
  | [id] => match names id with | some nm => nm | none => []
  | id :: id2 :: rest =>
    (match names id with | some nm => nm ++ commaB | none => []) ++ giRender names (id2 :: rest)

/-- Embedding of acc2tax's `get_taxonomy_from_node`: walk to the root,
then render the reversed chain. -/
def get_taxonomy_from_node (nodes : Nat → Nat) (names : Nat → Option (List Nat))
    (start fuel : Nat) : Option (List Nat) :=
  (walkSteps nodes start fuel).map (fun l => accRender names l.reverse)

/-! ## Loaded tables and the batch driver -/

/-- The global tables of acc2tax once loading has finished, plus the open
accession reference file. -/
structure Env where
  maxGi : Nat
  giToNode : Nat → Nat
  nodes : Nat → Nat
  names : Nat → Option (List Nat)
  accFile : List Nat

/-- Embedding of acc2tax's `get_taxonomy_by_gi`.  `t` is the caller's
lineage buffer: on either error path (`e != 0`) the buffer is returned
unchanged, exactly as the C function leaves it untouched. -/
def get_taxonomy_by_gi (env : Env) (fuel : Nat) (gi : Int) (t : List Nat) :
    Option (List Nat) :=
  if env.maxGi ≤ gi.toNat ∨ gi < 1 then some t
  else if env.giToNode gi.toNat = 0 then some t
  else get_taxonomy_from_node env.nodes env.names (env.giToNode gi.toNat) fuel

/-- Decimal digits of `n`, as printf `%i` writes them for a nonnegative
value; the first argument is fuel for the digit recursion. -/
def natToBytesAux : Nat → Nat → List Nat
  | 0, _ => []
  | _ + 1, 0 => []
  | fuel + 1, n + 1 => natToBytesAux fuel ((n + 1) / 10) ++ [48 + (n + 1) % 10]

/-- printf `%i` for a nonnegative value. -/
def natToBytes (n : Nat) : List Nat :=
  if n = 0 then [48] else natToBytesAux n n

/-- One iteration of `process_request_file` in GI mode on input `line`,
with `t` the current contents of the lineage buffer.  Result: the buffer
afterwards and the output line written, if any; `none` if the taxonomy
walk ran out of fuel. -/
def process_line_gi (env : Env) (fuel : Nat) (t line : List Nat) :
    Option (List Nat × Option (List Nat)) :=
  if atoi (chomp line) < 1 then some (t, none)
  else
    match get_taxonomy_by_gi env fuel (atoi (chomp line)) t with
    | none => none
    | some t2 => some (t2, some (natToBytes (atoi (chomp line)).toNat ++ 9 :: (t2 ++ [10])))

/-- One iteration of `process_request_file` in accession mode. -/
def process_line_acc (env : Env) (fuel : Nat) (t line : List Nat) :
    Option (List Nat × Option (List Nat)) :=
  if (find_accession env.accFile (chomp line)).1 then
    if (find_accession env.accFile (chomp line)).2.taxid = 0 then
      some (unknownB, some (chomp line ++ 9 :: (unknownB ++ [10])))
    else
      match
        get_taxonomy_from_node env.nodes env.names
          (find_accession env.accFile (chomp line)).2.taxid.toNat fuel with
      | none => none
      | some t2 => some (t2, some (chomp line ++ 9 :: (t2 ++ [10])))
  else some (t, none)

/-- Embedding of the `process_request_file` loop: fold over the input
lines threading the lineage buffer, concatenating the output bytes. -/
def processLines (isGi : Bool) (env : Env) (fuel : Nat) :
    List (List Nat) → List Nat → Option (List Nat)
  | [], _ => some []
  | line :: rest, t =>
    match (if isGi then process_line_gi env fuel t line else process_line_acc env fuel t line) with
    | none => none
    | some (t2, out) =>
      match processLines isGi env fuel rest t2 with
      | none => none
      | some outs => some (out.getD [] ++ outs)

/-! ## The GI-index loaders -/

/-- Pointwise update of a dense table. -/
def updateTbl (tbl : Nat → Nat) (k v : Nat) : Nat → Nat :=
  fun n => if n = k then v else tbl n

/-- One line of acc2tax's `load_gi_to_node_list`: `none` models the
`exit(1)` taken when the parsed gi is at least `max_gi`; a line without
two tokens is logged and skipped. -/
def load_gi_line_acc2tax (maxGi : Nat) (tbl : Nat → Nat) (line : List Nat) :
    Option (Nat → Nat) :=
  match tabTokens line with
  | giS :: nodeS :: _ =>
    if maxGi ≤ toUInt32nat (atoi giS) then none
    else some (updateTbl tbl (toUInt32nat (atoi giS)) (toUInt32nat (atoi nodeS)))
  | _ => some tbl

/-- acc2tax's GI-index load over a list of input lines. -/
def load_gi_list_acc2tax (maxGi : Nat) : List (List Nat) → (Nat → Nat) → Option (Nat → Nat)
  | [], tbl => some tbl
  | line :: rest, tbl =>
    match load_gi_line_acc2tax maxGi tbl line with
    | none => none
    | some tbl2 => load_gi_list_acc2tax maxGi rest tbl2

/-- gi2tax's compiled-in `MAX_GI`. -/
def giMaxGi2tax : Nat := 500000000

/-- One line of gi2tax's `load_gi_to_node_list`: an out-of-range gi is
only logged, the table is unchanged and loading continues (`gi` and
`node_id` are `unsigned`, so the `< 0` checks never fire). -/
def load_gi_line_gi2tax (tbl : Nat → Nat) (line : List Nat) : Nat → Nat :=
  match tabTokens line with
  | giS :: nodeS :: _ =>
    if giMaxGi2tax ≤ toUInt32nat (atoi giS) then tbl
    else updateTbl tbl (toUInt32nat (atoi giS)) (toUInt32nat (atoi nodeS))
  | _ => tbl

/-- gi2tax's GI-index load over a list of input lines: total, no abort. -/
def load_gi_list_gi2tax : List (List Nat) → (Nat → Nat) → (Nat → Nat)
  | [], tbl => tbl
  | line :: rest, tbl => load_gi_list_gi2tax rest (load_gi_line_gi2tax tbl line)

/-! ## The names loader -/

/-- The name class whose records populate the table. -/
def sciNameB : List Nat := strBytes "scientific name"

/-- Field 6 of the tab-split line, compared against "scientific name". -/
def nameClassOf (line : List Nat) : List Nat := (splitTabs line).getD 6 []

/-- Field 0 of the tab-split line, parsed as the (unsigned) taxon id. -/
def nameIdOf (line : List Nat) : Nat := toUInt32nat (atoi ((splitTabs line).getD 0 []))

/-- Field 2 of the tab-split line, the name text. -/
def nameFieldOf (line : List Nat) : List Nat := (splitTabs line).getD 2 []

/-- One line of `load_name_list`: only a "scientific name" record writes
the table, at its taxon id. -/
def load_name_line (tbl : Nat → Option (List Nat)) (line : List Nat) :
    Nat → Option (List Nat) :=
  if nameClassOf line = sciNameB then
    fun n => if n = nameIdOf line then some (nameFieldOf line) else tbl n
  else tbl

/-- `load_name_list` over a list of input lines. -/
def load_name_list (lines : List (List Nat)) (tbl : Nat → Option (List Nat)) :
    Nat → Option (List Nat) :=
  lines.foldl load_name_line tbl

/-- Does `line` carry a scientific name for taxon `id`? (the claim-side
selector used to state which record survives the load). -/
def isSciFor (id : Nat) (line : List Nat) : Bool :=
  (nameClassOf line == sciNameB) && (nameIdOf line == id)

/-! ## Concrete fixtures -/

/-- A malformed parent table with a cycle: 2 and 3 point at each other. -/
def cycNodes : Nat → Nat
  | 2 => 3
  | 3 => 2
  | _ => 1

/-- A parent chain 4 → 3 → 2 → 1. -/
def cNodes : Nat → Nat
  | 4 => 3
  | 3 => 2
  | _ => 1

/-- Names for the chain: 2 and 4 named, 3 has no scientific name. -/
def cNames : Nat → Option (List Nat)
  | 2 => some (strBytes "A")
  | 4 => some (strBytes "C")
  | _ => none

/-- A table naming only taxon 5. -/
def wNames : Nat → Option (List Nat)
  | 5 => some (strBytes "E")
  | _ => none

/-- The empty GI table. -/
def zeroTbl : Nat → Nat := fun _ => 0

/-- An environment whose GI table maps every id to 0: nothing resolves. -/
def cexEnv : Env :=
  { maxGi := 100, giToNode := fun _ => 0, nodes := fun _ => 1,
    names := fun _ => none, accFile := [] }

/-- An environment whose accession file holds a record with taxid 0
(after a one-byte first line, so the record is found intact). -/
def taxid0Env : Env :=
  { maxGi := 100, giToNode := fun _ => 0, nodes := fun _ => 1,
    names := fun _ => none, accFile := strBytes "X\nA0001\t1\t0\t7\n" }

/-- The sorted accession fixture of the spec, four records. -/
def accFix : List Nat :=
  strBytes "A0001\t1\t10\t100\nA0005\t1\t20\t200\nA0009\t1\t30\t300\nA0012\t1\t40\t400\n"

/-- A two-record file whose first record starts at byte 0. -/
def c3File : List Nat := strBytes "AB\t1\t5\t7\nCD\t2\t6\t8\n"

/-! ## Helper lemmas for the binary search -/

/-- One-step unfolding of the `find_accession` loop. -/
theorem findLoop_eq (file q : List Nat) (mn mx : Nat) :
    findLoop file q mn mx =
      match strcmpO (split_fields (get_closest_record file (mn + (mx - mn) / 2))).accession q with
      | Ordering.eq => (true, split_fields (get_closest_record file (mn + (mx - mn) / 2)))
      | Ordering.gt =>
        if mn + (mx - mn) / 2 - mn < 20 then
          (false, split_fields (get_closest_record file (mn + (mx - mn) / 2)))
        else findLoop file q mn (mn + (mx - mn) / 2)
      | Ordering.lt =>
        if mx - (mn + (mx - mn) / 2) < 20 then
          (false, split_fields (get_closest_record file (mn + (mx - mn) / 2)))
        else findLoop file q (mn + (mx - mn) / 2) mx := by
  conv_lhs => rw [findLoop]

/-- Fuel `mx - mn + 1` always suffices for the fuel-counted loop, and its
result is the loop's result: each continuing iteration has verified that
the new width is still at least 20, and the width strictly shrinks. -/
theorem findLoopF_suffices (file q : List Nat) :
    ∀ (fuel mn mx : Nat), mx - mn < fuel →
      findLoopF file q mn mx fuel = some (findLoop file q mn mx) := by
  intro fuel
  induction fuel with
  | zero => intro mn mx h; omega
  | succ n ih =>
    intro mn mx h
    rw [findLoopF, findLoop_eq]
    cases hc : strcmpO (split_fields (get_closest_record file (mn + (mx - mn) / 2))).accession q with
    | eq => simp
    | gt =>
      simp only
      by_cases hw : mn + (mx - mn) / 2 - mn < 20
      · rw [if_pos hw, if_pos hw]
      · rw [if_neg hw, if_neg hw]
        exact ih mn (mn + (mx - mn) / 2) (by omega)
    | lt =>
      simp only
      by_cases hw : mx - (mn + (mx - mn) / 2) < 20
      · rw [if_pos hw, if_pos hw]
      · rw [if_neg hw, if_neg hw]
        exact ih (mn + (mx - mn) / 2) mx (by omega)

/-- Concrete evaluation principle for the loop: compute the fuel-counted
variant instead (the loop itself is defined by well-founded recursion,
which the kernel does not reduce). -/
theorem findLoop_eval (file q : List Nat) (mn mx : Nat) (v : Bool × AccRecord)
    (h : findLoopF file q mn mx (mx - mn + 1) = some v) : findLoop file q mn mx = v := by
  have h2 := findLoopF_suffices file q (mx - mn + 1) mn mx (by omega)
  rw [h] at h2
  exact (Option.some.inj h2).symm

/-- The search of `taxid0Env`'s accession file finds the taxid-0 record. -/
theorem fa_taxid0 : find_accession taxid0Env.accFile (strBytes "A0001") =
    (true, { accession := strBytes "A0001", version := [49], taxid := 0, gi := 7 }) := by
  apply findLoop_eval
  decide

/-! ## Claim C1 -/

/-- Claim C1: each iteration of `find_accession` on the half-open range
`[low, high)` computes the midpoint `low + (high - low) / 2` (which lies
inside the range), reads the record located at that midpoint, and compares
the query byte-wise with the record's accession field: on equality it
returns the record as found; when the record's accession is greater it
continues on `[low, mid)`; when lesser, on `[mid, high)`; and it returns
not-found as soon as the width of the new range falls below 20 bytes
without an exact match. -/
theorem find_accession_bisection_step (file q : List Nat) (low high : Nat)
    (hlt : low < high) :
    (low ≤ low + (high - low) / 2 ∧ low + (high - low) / 2 < high) ∧
    findLoop file q low high =
      match strcmpO (split_fields (get_closest_record file (low + (high - low) / 2))).accession q with
      | Ordering.eq => (true, split_fields (get_closest_record file (low + (high - low) / 2)))
      | Ordering.gt =>
        if low + (high - low) / 2 - low < 20 then
          (false, split_fields (get_closest_record file (low + (high - low) / 2)))
        else findLoop file q low (low + (high - low) / 2)
      | Ordering.lt =>
        if high - (low + (high - low) / 2) < 20 then
          (false, split_fields (get_closest_record file (low + (high - low) / 2)))
        else findLoop file q (low + (high - low) / 2) high :=
  ⟨by omega, findLoop_eq file q low high⟩

/-- Witness for C1 at the spec's accession fixture: the midpoint of the
full range of `accFix` lies strictly inside it. -/
theorem find_accession_bisection_step_witness :
    0 ≤ 0 + (accFix.length - 0) / 2 ∧ 0 + (accFix.length - 0) / 2 < accFix.length :=
  (find_accession_bisection_step accFix (strBytes "A0005") 0 accFix.length (by decide)).1

/-! ## Claim C9 -/

/-- Claim C9: `find_accession` terminates for every file and query; the
loop on `[mn, mx)` finishes within `mx - mn + 1` iterations, and on the
whole file within `size + 1` iterations. -/
theorem find_accession_terminates :
    (∀ (file q : List Nat) (mn mx fuel : Nat), mx - mn < fuel →
        findLoopF file q mn mx fuel = some (findLoop file q mn mx)) ∧
    (∀ file q : List Nat,
        findLoopF file q 0 file.length (file.length + 1) = some (find_accession file q)) := by
  constructor
  · intro file q mn mx fuel h
    exact findLoopF_suffices file q fuel mn mx h
  · intro file q
    rw [find_accession]
    exact findLoopF_suffices file q (file.length + 1) 0 file.length (by omega)

/-- Witness for C9: the loop on the empty file finishes with one unit of
fuel. -/
theorem find_accession_terminates_witness :
    findLoopF [] [] 0 0 1 = some (findLoop [] [] 0 0) :=
  find_accession_terminates.1 [] [] 0 0 1 (by omega)

/-! ## Claim C3 -/

/-- Claim C3 (code bug): when the backward scan of `get_closest_record`
reaches the start of the file without meeting a newline, the `fgetc` of
byte 0 has moved the cursor to byte 1, so the line then read drops the
file's first byte instead of being the complete first record: from offset
1 of `c3File` the code reads `"B\t1\t5\t7\n"`, not the first record
`"AB\t1\t5\t7\n"`. -/
theorem get_closest_record_first_byte_dropped :
    get_closest_record c3File 1 = strBytes "B\t1\t5\t7\n" ∧
    fgetsFrom c3File 0 = strBytes "AB\t1\t5\t7\n" ∧
    strBytes "B\t1\t5\t7\n" ≠ strBytes "AB\t1\t5\t7\n" := by
  decide

/-! ## Claim C2 -/

/-- On the two-cycle 2 ↔ 3 the walk never finishes, whatever the fuel. -/
theorem walkSteps_cyc_none :
    ∀ fuel : Nat, walkSteps cycNodes 2 fuel = none ∧ walkSteps cycNodes 3 fuel = none := by
  intro fuel
  induction fuel with
  | zero => exact ⟨rfl, rfl⟩
  | succ n ih =>
    refine ⟨?_, ?_⟩
    · have h2 : cycNodes 2 = 3 := rfl
      simp [walkSteps, h2, ih.2]
    · have h3 : cycNodes 3 = 2 := rfl
      simp [walkSteps, h3, ih.1]

/-- Counterexample to claim C2: on a malformed parent table containing a
cycle, 1024 parent-link steps do not complete the traversal — the loop
`while (current_node > 1)` has no hop bound and keeps running. -/
theorem walk_cycle_exceeds_bound_cex : walkSteps cycNodes 2 1024 = none :=
  (walkSteps_cyc_none 1024).1

/-- Claim C2 as amended: the walk stops exactly when it reaches a node
with id at most 1; it completes within `fuel` steps iff some iterate of
the parent function reaches such a node within `fuel` steps.  No other
bound — in particular no 1024-hop bound — is enforced. -/
theorem walk_stops_only_at_root :
    ∀ (nodes : Nat → Nat) (fuel start : Nat),
      (walkSteps nodes start fuel).isSome ↔ ∃ k, k ≤ fuel ∧ nodes^[k] start ≤ 1 := by
  intro nodes fuel
  induction fuel with
  | zero =>
    intro start
    constructor
    · intro h
      rw [walkSteps] at h
      by_cases hs : start ≤ 1
      · exact ⟨0, Nat.le_refl 0, by simpa using hs⟩
      · rw [if_neg hs] at h
        simp at h
    · rintro ⟨k, hk, hle⟩
      have hk0 : k = 0 := Nat.le_zero.mp hk
      subst hk0
      simp only [Function.iterate_zero, id_eq] at hle
      rw [walkSteps, if_pos hle]
      rfl
  | succ n ih =>
    intro start
    by_cases hs : start ≤ 1
    · constructor
      · intro _
        exact ⟨0, Nat.zero_le _, by simpa using hs⟩
      · intro _
        rw [walkSteps, if_pos hs]
        rfl
    · rw [walkSteps, if_neg hs]
      constructor
      · intro h
        have hsome : (walkSteps nodes (nodes start) n).isSome := by
          cases hw : walkSteps nodes (nodes start) n with
          | none => rw [hw] at h; simp at h
          | some l => simp
        rcases (ih (nodes start)).mp hsome with ⟨k, hk, hle⟩
        exact ⟨k + 1, by omega, by rwa [Function.iterate_succ_apply]⟩
      · rintro ⟨k, hk, hle⟩
        cases k with
        | zero =>
          simp only [Function.iterate_zero, id_eq] at hle
          omega
        | succ k2 =>
          rw [Function.iterate_succ_apply] at hle
          have hsome := (ih (nodes start)).mpr ⟨k2, by omega, hle⟩
          cases hw : walkSteps nodes (nodes start) n with
          | none => rw [hw] at hsome; simp at hsome
          | some l => simp [hw]

/-! ## Claim C4 -/

/-- Counterexample to claim C4: in GI mode an identifier whose lookup in
`gi_to_node` yields 0 still produces an output line — the `fprintf` in
`process_request_file` is unconditional — and its lineage field is the
untouched previous contents of the buffer (here `"OLD"`). -/
theorem gi_unresolved_writes_output_cex :
    process_line_gi cexEnv 9 (strBytes "OLD") (strBytes "7\n") =
      some (strBytes "OLD", some (strBytes "7\tOLD\n")) := by
  decide

/-- Claim C4 as amended: in GI mode only a line parsing to a value below 1
is skipped without output; an identifier of 1 or more that is out of the
configured domain or maps to node 0 is logged but still writes an output
line whose lineage field is the buffer's previous contents; and an
accession resolving to a record with taxid exactly 0 writes an output line
whose lineage field is the literal "Unknown", with no walk of the
taxonomy tables. -/
theorem driver_unresolved_asymmetry :
    (∀ (env : Env) (fuel : Nat) (t line : List Nat), atoi (chomp line) < 1 →
        process_line_gi env fuel t line = some (t, none)) ∧
    (∀ (env : Env) (fuel : Nat) (t line : List Nat), 1 ≤ atoi (chomp line) →
        env.maxGi ≤ (atoi (chomp line)).toNat ∨ env.giToNode (atoi (chomp line)).toNat = 0 →
        process_line_gi env fuel t line =
          some (t, some (natToBytes (atoi (chomp line)).toNat ++ 9 :: (t ++ [10])))) ∧
    (∀ (env : Env) (fuel : Nat) (t line : List Nat),
        (find_accession env.accFile (chomp line)).1 = true →
        (find_accession env.accFile (chomp line)).2.taxid = 0 →
        process_line_acc env fuel t line =
          some (unknownB, some (chomp line ++ 9 :: (unknownB ++ [10])))) := by
  refine ⟨?_, ?_, ?_⟩
  · intro env fuel t line h
    rw [process_line_gi, if_pos h]
  · intro env fuel t line h1 h2
    have hg : get_taxonomy_by_gi env fuel (atoi (chomp line)) t = some t := by
      rcases h2 with h2 | h2
      · rw [get_taxonomy_by_gi, if_pos (Or.inl h2)]
      · rw [get_taxonomy_by_gi]
        by_cases hd : env.maxGi ≤ (atoi (chomp line)).toNat ∨ atoi (chomp line) < 1
        · rw [if_pos hd]
        · rw [if_neg hd, if_pos h2]
    rw [process_line_gi, if_neg (by omega), hg]
  · intro env fuel t line h1 h2
    rw [process_line_acc, if_pos h1, if_pos h2]

/-- Witness for the amended C4: a line parsing to 0 is skipped, and the
fixture record with taxid 0 yields an "Unknown" output line. -/
theorem driver_unresolved_asymmetry_witness :
    process_line_gi cexEnv 5 (strBytes "Z") (strBytes "0\n") = some (strBytes "Z", none) ∧
    process_line_acc taxid0Env 5 (strBytes "Z") (strBytes "A0001\n") =
      some (unknownB, some (strBytes "A0001\tUnknown\n")) := by
  constructor
  · exact driver_unresolved_asymmetry.1 cexEnv 5 (strBytes "Z") (strBytes "0\n") (by decide)
  · have hch : chomp (strBytes "A0001\n") = strBytes "A0001" := by decide
    have h := driver_unresolved_asymmetry.2.2 taxid0Env 5 (strBytes "Z") (strBytes "A0001\n")
      (by rw [hch, fa_taxid0]) (by rw [hch, fa_taxid0])
    rw [h]
    decide

/-! ## Claim C5 -/

/-- Counterexample to claim C5: gi2tax's loader meets a line whose gi
(600000000) is at least its `MAX_GI` (500000000), stores nothing for it,
and — far from aborting — continues and stores the next line's entry. -/
theorem gi2tax_load_out_of_range_skipped_cex :
    load_gi_list_gi2tax [strBytes "600000000\t5\n", strBytes "3\t9\n"] zeroTbl 600000000 = 0 ∧
    load_gi_list_gi2tax [strBytes "600000000\t5\n", strBytes "3\t9\n"] zeroTbl 3 = 9 := by
  decide

/-- Claim C5 as amended: acc2tax's GI-index load aborts the whole run as
soon as a line's gi parses to at least `max_gi` (no entry stored), but
gi2tax's load only logs such a line and continues with the table
unchanged. -/
theorem gi_load_bound_asymmetry :
    (∀ (maxGi : Nat) (tbl : Nat → Nat) (line giS nodeS : List Nat)
        (restT : List (List Nat)) (ls : List (List Nat)),
        tabTokens line = giS :: nodeS :: restT →
        maxGi ≤ toUInt32nat (atoi giS) →
        load_gi_list_acc2tax maxGi (line :: ls) tbl = none) ∧
    (∀ (tbl : Nat → Nat) (line giS nodeS : List Nat)
        (restT : List (List Nat)) (ls : List (List Nat)),
        tabTokens line = giS :: nodeS :: restT →
        giMaxGi2tax ≤ toUInt32nat (atoi giS) →
        load_gi_list_gi2tax (line :: ls) tbl = load_gi_list_gi2tax ls tbl) := by
  constructor
  · intro maxGi tbl line giS nodeS restT ls htok hge
    have hline : load_gi_line_acc2tax maxGi tbl line = none := by
      unfold load_gi_line_acc2tax
      rw [htok]
      simp only
      rw [if_pos hge]
    simp [load_gi_list_acc2tax, hline]
  · intro tbl line giS nodeS restT ls htok hge
    have hline : load_gi_line_gi2tax tbl line = tbl := by
      unfold load_gi_line_gi2tax
      rw [htok]
      simp only
      rw [if_pos hge]
    simp [load_gi_list_gi2tax, hline]

/-- Witness for the amended C5 at concrete lines. -/
theorem gi_load_bound_asymmetry_witness :
    load_gi_list_acc2tax 50 [strBytes "60\t5\n"] zeroTbl = none ∧
    load_gi_list_gi2tax [strBytes "600000001\t4\n"] zeroTbl = load_gi_list_gi2tax [] zeroTbl := by
  constructor
  · exact gi_load_bound_asymmetry.1 50 zeroTbl (strBytes "60\t5\n")
      (strBytes "60") (strBytes "5\n") [] [] (by decide) (by decide)
  · exact gi_load_bound_asymmetry.2 zeroTbl (strBytes "600000001\t4\n")
      (strBytes "600000001") (strBytes "4\n") [] [] (by decide) (by decide)

/-! ## Claim C6 -/

/-- A nonempty list always has a last element. -/
theorem getLast?_isSome_of_cons {α : Type} (x : α) (xs : List α) :
    ∃ y, (x :: xs).getLast? = some y := by
  induction xs generalizing x with
  | nil => exact ⟨x, rfl⟩
  | cons z zs ih =>
    rcases ih z with ⟨y, hy⟩
    exact ⟨y, by rw [List.getLast?_cons_cons]; exact hy⟩

/-- Claim C6: the loaded name table at taxon `id` holds the name of the
last input line whose name-class field is exactly "scientific name" and
whose taxon-id field parses to `id`; when no such line exists, the table
is unchanged at `id` — lines of any other class never touch it. -/
theorem load_name_list_last_scientific (lines : List (List Nat))
    (tbl : Nat → Option (List Nat)) (id : Nat) :
    load_name_list lines tbl id =
      match (lines.filter (isSciFor id)).getLast? with
      | some l => some (nameFieldOf l)
      | none => tbl id := by
  induction lines generalizing tbl with
  | nil => rfl
  | cons l ls ih =>
    have hstep : load_name_list (l :: ls) tbl = load_name_list ls (load_name_line tbl l) := rfl
    rw [hstep, ih]
    by_cases hs : isSciFor id l
    · rw [List.filter_cons_of_pos hs]
      have hdec : nameClassOf l = sciNameB ∧ nameIdOf l = id := by
        simpa [isSciFor, Bool.and_eq_true, beq_iff_eq] using hs
      have hupd : load_name_line tbl l id = some (nameFieldOf l) := by
        rw [load_name_line, if_pos hdec.1]
        simp [hdec.2]
      cases hfl : ls.filter (isSciFor id) with
      | nil => simp [hupd]
      | cons x xs =>
        rw [List.getLast?_cons_cons]
        rcases getLast?_isSome_of_cons x xs with ⟨y, hy⟩
        rw [hy]
    · rw [List.filter_cons_of_neg hs]
      have hupd : load_name_line tbl l id = tbl id := by
        rw [load_name_line]
        by_cases hc : nameClassOf l = sciNameB
        · rw [if_pos hc]
          have hid : ¬ id = nameIdOf l := by
            intro he
            apply hs
            simp [isSciFor, hc, he]
          simp [hid]
        · rw [if_neg hc]
      rw [hupd]

/-! ## Claim C7 -/

/-- Unfolding of `List.intercalate` over a two-or-more element list. -/
theorem intercalate_cons_cons (sep x y : List Nat) (rest : List (List Nat)) :
    List.intercalate sep (x :: y :: rest) = x ++ sep ++ List.intercalate sep (y :: rest) := by
  simp [List.intercalate, List.intersperse]

/-- acc2tax's rendering loop is exactly comma-joining the per-element
names, with "Unknown" substituted pointwise for the missing ones. -/
theorem accRender_eq_intercalate (names : Nat → Option (List Nat)) :
    ∀ l : List Nat, accRender names l = List.intercalate commaB (l.map (nameOrUnknown names))
  | [] => rfl
  | [id] => by simp [accRender, List.intercalate, List.intersperse]
  | id :: id2 :: rest => by
    have ih := accRender_eq_intercalate names (id2 :: rest)
    rw [accRender, ih, List.map_cons, List.map_cons, List.map_cons, intercalate_cons_cons]

/-- Counterexample to claim C7: on the chain whose middle taxon 3 has no
scientific name, gi2tax's rendering loop drops the element (and its comma)
entirely, producing "A,C" where the "Unknown" substitution described by
the claim would produce "A,Unknown,C". -/
theorem gi2tax_render_omits_unknown_cex :
    giRender cNames [2, 3, 4] = strBytes "A,C" ∧
    accRender cNames [2, 3, 4] = strBytes "A,Unknown,C" ∧
    strBytes "A,C" ≠ strBytes "A,Unknown,C" := by
  decide

/-- Claim C7 as amended (restricted to acc2tax's lineage builder, the
renderer of `get_taxonomy_from_node`): the rendered lineage is the
comma-join of the root-first names where every taxon id without a
scientific name contributes exactly the literal "Unknown" in its position,
the other names and the comma structure unaffected.  gi2tax's renderer
instead omits a nameless element altogether. -/
theorem lineage_unknown_substitution (nodes : Nat → Nat) (names : Nat → Option (List Nat))
    (start fuel : Nat) (l : List Nat) (h : walkSteps nodes start fuel = some l) :
    get_taxonomy_from_node nodes names start fuel =
      some (List.intercalate commaB (l.reverse.map (nameOrUnknown names))) := by
  rw [get_taxonomy_from_node, h]
  simp [accRender_eq_intercalate]

/-- Witness for the amended C7 on the fixture chain with the nameless
middle taxon. -/
theorem lineage_unknown_substitution_witness :
    get_taxonomy_from_node cNodes cNames 4 10 =
      some (List.intercalate commaB (([4, 3, 2] : List Nat).reverse.map (nameOrUnknown cNames))) :=
  lineage_unknown_substitution cNodes cNames 4 10 [4, 3, 2] (by decide)

/-! ## Claim C8 -/

/-- Claim C8: when the walk from a non-root taxon completes, the rendered
name sequence is root-first with the queried taxon last, so its last
element is the queried taxon's own scientific name whenever that name is
present; and the lineage of the root itself (taxon 1) is empty. -/
theorem lineage_root_first_queried_last :
    (∀ (nodes : Nat → Nat) (names : Nat → Option (List Nat)) (start fuel : Nat)
        (l nm : List Nat), 1 < start →
        walkSteps nodes start fuel = some l → names start = some nm →
        (l.reverse.map (nameOrUnknown names)).getLast? = some nm) ∧
    (∀ (nodes : Nat → Nat) (names : Nat → Option (List Nat)) (fuel : Nat),
        get_taxonomy_from_node nodes names 1 fuel = some []) := by
  constructor
  · intro nodes names start fuel l nm hstart hw hname
    have hcons : ∃ l2, l = start :: l2 := by
      cases fuel with
      | zero =>
        rw [walkSteps, if_neg (by omega)] at hw
        cases hw
      | succ n =>
        rw [walkSteps, if_neg (by omega)] at hw
        cases hw2 : walkSteps nodes (nodes start) n with
        | none => rw [hw2] at hw; cases hw
        | some l2 => rw [hw2] at hw; exact ⟨l2, (Option.some.inj hw).symm⟩
    rcases hcons with ⟨l2, rfl⟩
    rw [List.reverse_cons, List.map_append]
    simp [List.getLast?_concat, nameOrUnknown, hname]
  · intro nodes names fuel
    cases fuel with
    | zero => rfl
    | succ n => rfl

/-- Witness for C8: the one-step chain from taxon 5 ends with 5's own
name. -/
theorem lineage_root_first_queried_last_witness :
    (([5] : List Nat).reverse.map (nameOrUnknown wNames)).getLast? = some (strBytes "E") :=
  lineage_root_first_queried_last.1 (fun _ => 1) wNames 5 3 [5] (strBytes "E")
    (by omega) (by decide) rfl

/-! ## Claim C10 -/

/-- Counterexample to claim C10: in GI mode the same input lines and the
same tables produce different output bytes for two different initial
contents of the lineage buffer — in C that initial content is an
uninitialized stack buffer, which the first unresolvable identifier of at
least 1 copies into the output file. -/
theorem driver_initial_buffer_dependence_cex :
    processLines true cexEnv 9 [strBytes "7\n"] (strBytes "X") ≠
      processLines true cexEnv 9 [strBytes "7\n"] (strBytes "Y") := by
  decide

/-- An accession-mode iteration either skips the line returning the buffer
unchanged, or returns a result that does not depend on the buffer. -/
theorem process_line_acc_buffer (env : Env) (fuel : Nat) (l t0 t1 : List Nat) :
    (process_line_acc env fuel t0 l = some (t0, none) ∧
     process_line_acc env fuel t1 l = some (t1, none)) ∨
    process_line_acc env fuel t0 l = process_line_acc env fuel t1 l := by
  unfold process_line_acc
  by_cases h1 : (find_accession env.accFile (chomp l)).1
  · right
    simp only [if_pos h1]
  · left
    rw [if_neg h1, if_neg h1]
    exact ⟨rfl, rfl⟩

/-- Claim C10 as amended: in accession mode the batch output is a function
of the input lines and tables alone — the initial lineage-buffer contents
never reach the output, so two runs are byte-identical.  (In GI mode the
output additionally depends on the initial buffer, see the
counterexample.) -/
theorem accession_mode_buffer_independent (env : Env) (fuel : Nat) :
    ∀ (lines : List (List Nat)) (t0 t1 : List Nat),
      processLines false env fuel lines t0 = processLines false env fuel lines t1 := by
  intro lines
  induction lines with
  | nil => intro t0 t1; rfl
  | cons l ls ih =>
    intro t0 t1
    simp only [processLines, Bool.false_eq_true, if_false]
    rcases process_line_acc_buffer env fuel l t0 t1 with ⟨ha, hb⟩ | heq
    · rw [ha, hb]
      simp only
      rw [ih t0 t1]
    · rw [heq]

end Acc2Tax
